import Mathlib

/-!
Verification development for the news-crawler pipeline in `news.js`.

The JavaScript program is shallowly embedded: DOM selector queries are
abstracted as lists of already-queried elements (a `Page`), URL resolution
(`new URL(link, base).href`, which may throw) is an `Option`-valued
parameter of the `Crawler`, the clock (`new Date()...`) is a string
parameter, and filesystem / git / network effects are made explicit as
returned events.  JavaScript string `.length` is modelled as the character
count (they agree on the BMP text the program handles), and `.trim()` as
removal of leading/trailing ASCII whitespace.
-/

/-- Character-list prefix test, modelling `String.prototype.startsWith` and
anchored regexes. -/
def isPrefixChars : List Char → List Char → Bool
  | [], _ => true
  | _ :: _, [] => false
  | a :: as, b :: bs => a = b && isPrefixChars as bs

/-- Substring containment on character lists. -/
def containsChars (pat : List Char) : List Char → Bool
  | [] => isPrefixChars pat []
  | a :: rest => isPrefixChars pat (a :: rest) || containsChars pat rest

/-- Models JavaScript `s.includes(pat)` (used for the hostname branching). -/
def strContains (s pat : String) : Bool :=
  containsChars pat.data s.data

/-- Models JavaScript `s.startsWith(pre)`. -/
def strStartsWith (s pre : String) : Bool :=
  isPrefixChars pre.data s.data

/-- ASCII whitespace predicate backing the model of `trim()`. -/
def isSpaceChar (c : Char) : Bool :=
  c = ' ' || c = '\t' || c = '\n' || c = '\r'

/-- Drop leading whitespace characters. -/
def dropLeadingWS : List Char → List Char
  | [] => []
  | c :: rest => if isSpaceChar c then dropLeadingWS rest else c :: rest

/-- Models JavaScript `s.trim()` (restricted to ASCII whitespace). -/
def strTrim (s : String) : String :=
  String.mk ((dropLeadingWS (dropLeadingWS s.data).reverse).reverse)

/-- One extracted headline, the object pushed into `newsItems` in
`parseNews`. -/
structure NewsItem where
  title : String
  link : String
  summary : String
  crawl_time : String
  source : String
deriving DecidableEq

/-- One DOM element returned by a site-specific selector query: the text of
the title sub-query, the text of the first anchor (the sina fallback), and
the `href` attribute of the first anchor (`none` models `undefined`). -/
structure SelElem where
  text1 : String
  text2 : String
  href : Option String
deriving DecidableEq

/-- One anchor element seen by the generic `$("a")` pass. -/
structure Anchor where
  href : Option String
  text : String
deriving DecidableEq

/-- The DOM abstraction of one fetched HTML document: the result lists of
the four selector queries `parseNews` performs. -/
structure Page where
  sinaCards : List SelElem
  sinaHot : List SelElem
  neteaseEls : List SelElem
  anchors : List Anchor

/-- Crawler state: the target URL plus the abstracted ambient functions.
`resolve link` models `new URL(link, this.url).href` (`none` = the
constructor threw), `hostname` models `new URL(this.url).hostname`, and
`now` models the timestamp string taken at extraction time. -/
structure Crawler where
  url : String
  resolve : String → Option String
  hostname : Option String
  now : String

/-- Models `link.startsWith("http") ? link : new URL(link, this.url).href`. -/
def resolveLink (c : Crawler) (link : String) : Option String :=
  if strStartsWith link "http" then some link else c.resolve link

/-- Title of a sina card element:
`$el.find("h2, .ty-card-tt, .news-title").text().trim() ||
 $el.find("a").first().text().trim()`. -/
def sinaCardTitle (el : SelElem) : String :=
  let t := strTrim el.text1
  if t ≠ "" then t else strTrim el.text2

/-- Shared body of the three site-specific loops: accept the element only
when both the trimmed title and the href are non-empty (JS truthiness),
resolve the link, and build the record; a resolution failure models the
caught per-element exception and skips the element. -/
def passItem (c : Crawler) (summary source title : String) (href : Option String) :
    Option NewsItem :=
  match href with
  | none => none
  | some link =>
    if title ≠ "" ∧ link ≠ "" then
      match resolveLink c link with
      | some fullLink => some ⟨title, fullLink, summary, c.now, source⟩
      | none => none
    else none

/-- The `.news-item, .ty-card-type1, .ty-card-type2` loop of `parseNews`. -/
def sinaNewsPass (c : Crawler) (els : List SelElem) : List NewsItem :=
  els.filterMap fun el => passItem c "热门新闻" "新浪新闻" (sinaCardTitle el) el.href

/-- The `.list_a li, .data-list li` loop of `parseNews`. -/
def sinaHotPass (c : Crawler) (els : List SelElem) : List NewsItem :=
  els.filterMap fun el => passItem c "热榜新闻，无摘要" "新浪微博热搜" (strTrim el.text1) el.href

/-- The `.news_title, .data_row, .news_item` loop of `parseNews`. -/
def neteasePass (c : Crawler) (els : List SelElem) : List NewsItem :=
  els.filterMap fun el => passItem c "网易新闻，无摘要" "网易新闻" (strTrim el.text1) el.href

/-- The anchored scheme test `/^(javascript|mailto|tel):/.test(href)` (no
`i` flag in the source, hence case-sensitive). -/
def schemeMatch (href : String) : Bool :=
  strStartsWith href "javascript:" || strStartsWith href "mailto:" || strStartsWith href "tel:"

/-- Result of the generic `$("a")` loop body for one anchor: the text and
length filters, the scheme filter, then link resolution and hostname
lookup, whose failure silently drops the candidate. -/
def genericItem (c : Crawler) (a : Anchor) : Option NewsItem :=
  match a.href with
  | none => none
  | some href =>
    let text := strTrim a.text
    if text ≠ "" ∧ href ≠ "" ∧ text.length > 10 ∧ text.length < 100 ∧ schemeMatch href = false then
      match resolveLink c href, c.hostname with
      | some fullLink, some host => some ⟨text, fullLink, "通用爬取，无摘要", c.now, host⟩
      | _, _ => none
    else none

/-- The generic fallback pass over every anchor. -/
def genericPass (c : Crawler) (anchors : List Anchor) : List NewsItem :=
  anchors.filterMap (genericItem c)

/-- The records pushed by the site-specific branches of `parseNews`
(the state of `newsItems` right before the fallback check). -/
def specificItems (c : Crawler) (p : Page) : List NewsItem :=
  if strContains c.url "sina.com.cn" then
    sinaNewsPass c p.sinaCards ++ sinaHotPass c p.sinaHot
  else if strContains c.url "163.com" then
    neteasePass c p.neteaseEls
  else []

/-- The full `newsItems` array before deduplication: the generic pass is
appended exactly when the site-specific branches produced zero records
(`if (newsItems.length === 0)`). -/
def rawItems (c : Crawler) (p : Page) : List NewsItem :=
  let s := specificItems c p
  if s.length = 0 then s ++ genericPass c p.anchors else s

/-- One `Map.prototype.set`: update the value in place when the key exists
(keeping its position), otherwise append the new binding. -/
def mapUpsert : List (String × NewsItem) → String → NewsItem → List (String × NewsItem)
  | [], k, v => [(k, v)]
  | (k0, v0) :: rest, k, v =>
    if k0 = k then (k0, v) :: rest else (k0, v0) :: mapUpsert rest k v

/-- One fold step of building `new Map(newsItems.map(i => [i.title, i]))`. -/
def dedupStep (m : List (String × NewsItem)) (i : NewsItem) : List (String × NewsItem) :=
  mapUpsert m i.title i

/-- The title-keyed map built from the item list, in encounter order. -/
def buildMap (items : List NewsItem) : List (String × NewsItem) :=
  items.foldl dedupStep []

/-- Models `Array.from(new Map(newsItems.map(i => [i.title, i])).values())`. -/
def dedupByTitle (items : List NewsItem) : List NewsItem :=
  (buildMap items).map Prod.snd

/-- The whole of `NewsCrawler.parseNews` over the DOM abstraction. -/
def parseNews (c : Crawler) (p : Page) : List NewsItem :=
  dedupByTitle (rawItems c p)

/-- Global single-character replacement on a character list, modelling a
`String.prototype.replace` with a global single-character regex. -/
def replaceAllChar (c : Char) (r : List Char) : List Char → List Char
  | [] => []
  | x :: rest =>
    if x = c then r ++ replaceAllChar c r rest else x :: replaceAllChar c r rest

/-- The CSV free-text transformation of `saveToCsv`:
`.replace(/"/g, '""').replace(/,/g, "，")`. -/
def csvEscapeText (s : String) : String :=
  String.mk (replaceAllChar ',' ['，'] (replaceAllChar '"' ['"', '"'] s.data))

/-- One data row of the CSV document, with every field wrapped in double
quotes and only title/summary passed through the escaping transformation. -/
def csvRow (item : NewsItem) : String :=
  "\"" ++ csvEscapeText item.title ++ "\",\"" ++ item.link ++ "\",\"" ++
    csvEscapeText item.summary ++ "\",\"" ++ item.crawl_time ++ "\",\"" ++
    item.source ++ "\"\n"

/-- The full CSV text: BOM, header row, then one row per record. -/
def csvContent (items : List NewsItem) : String :=
  "\uFEFF" ++ "标题,链接,摘要,爬取时间,来源\n" ++ String.join (items.map csvRow)

/-- The Markdown title transformation `title.replace(/\|/g, "\\|")`. -/
def mdEscapeTitle (t : String) : String :=
  String.mk (replaceAllChar '|' ['\\', '|'] t.data)

/-- One Markdown table row. -/
def mdRow (item : NewsItem) : String :=
  "| " ++ mdEscapeTitle item.title ++ " | [链接](" ++ item.link ++ ") |\n"

/-- Append one item to its source's group, mirroring the
`newsBySource[item.source].push(item)` accumulation: groups appear in
first-seen source order, items in insertion order within a group. -/
def addToGroup : List (String × List NewsItem) → NewsItem → List (String × List NewsItem)
  | [], i => [(i.source, [i])]
  | (s, l) :: rest, i =>
    if s = i.source then (s, l ++ [i]) :: rest else (s, l) :: addToGroup rest i

/-- Models the `newsBySource` object together with `Object.entries` order
(all source labels are non-integer strings, so insertion order applies). -/
def groupBySource (items : List NewsItem) : List (String × List NewsItem) :=
  items.foldl addToGroup []

/-- One per-source section of the Markdown document. -/
def mdSection (g : String × List NewsItem) : String :=
  "## " ++ g.1 ++ "\n\n| 标题 | 链接 |\n| ---- | ---- |\n" ++
    String.join (g.2.map mdRow) ++ "\n"

/-- The full Markdown text assembled by `saveToMarkdown`; the two
`toLocale...("zh-CN")` timestamps are string parameters. -/
def mdContent (dateStr timeStr : String) (items : List NewsItem) : String :=
  "# 每日新闻摘要 " ++ dateStr ++ "\n\n" ++
    String.join ((groupBySource items).map mdSection) ++
    "\n> 爬取时间: " ++ timeStr ++ "\n"

/-- Models `NewsCrawler.saveToMarkdown`: the input is `Option` to cover the
`!newsItems` (null/undefined) guard, the result is the returned boolean
together with the file write performed (filename and content), `none`
meaning no write at all.  `defaultName` stands for the date-derived
default filename. -/
def saveToMarkdown (items : Option (List NewsItem)) (filename : Option String)
    (defaultName dateStr timeStr : String) : Bool × Option (String × String) :=
  match items with
  | none => (false, none)
  | some l =>
    if l.length = 0 then (false, none)
    else (true, some (filename.getD defaultName, mdContent dateStr timeStr l))

/-- Models `NewsCrawler.saveToCsv`, with the same conventions as
`saveToMarkdown`. -/
def saveToCsv (items : Option (List NewsItem)) (filename : Option String)
    (defaultName : String) : Bool × Option (String × String) :=
  match items with
  | none => (false, none)
  | some l =>
    if l.length = 0 then (false, none)
    else (true, some (filename.getD defaultName, csvContent l))

/-- The part of a `simple-git` status report that `commitToGitHub` reads. -/
structure GitStatus where
  modified : List String
  not_added : List String
deriving DecidableEq

/-- The three mutating git operations `commitToGitHub` can perform. -/
inductive GitStep where
  | add
  | commit
  | push
deriving DecidableEq

/-- Outcomes of the awaited git calls: each field is `ok` when the call
succeeds and `error` when it throws (auth, network, merge conflict...). -/
structure GitEnv where
  statusRes : Except String GitStatus
  addRes : Except String Unit
  commitRes : Except String Unit
  pushRes : Except String Unit

/-- Models `commitToGitHub(filePath)`: returns the boolean result together
with the list of mutating git steps attempted.  Every thrown error is
caught by the surrounding `try`/`catch` and becomes `false`; the function
is total with a `Bool` result, so no exception escapes. -/
def commitToGitHub (env : GitEnv) (filePath : String) : Bool × List GitStep :=
  match env.statusRes with
  | .error _ => (false, [])
  | .ok st =>
    if ¬ (filePath ∈ st.modified ∨ filePath ∈ st.not_added) then (false, [])
    else
      match env.addRes with
      | .error _ => (false, [GitStep.add])
      | .ok _ =>
        match env.commitRes with
        | .error _ => (false, [GitStep.add, GitStep.commit])
        | .ok _ =>
          match env.pushRes with
          | .error _ => (false, [GitStep.add, GitStep.commit, GitStep.push])
          | .ok _ => (true, [GitStep.add, GitStep.commit, GitStep.push])

/-- Observable side effects of one orchestrator run, in order. -/
inductive Event where
  | fetchOk (url : String)
  | fetchErr (url : String)
  | debugWrite
  | mdSave (filename : String) (items : List NewsItem)
  | commitAttempt (path : String)
  | sleepEv (ms : Nat)
deriving DecidableEq

/-- One configured target: its crawler and the outcome of its HTTP fetch
(`ok` carries the DOM abstraction of the returned HTML). -/
structure Target where
  crawler : Crawler
  fetched : Except String Page

/-- The records a target contributes: empty when the fetch failed (the
caught error makes `run` return `[]`). -/
def targetItems (t : Target) : List NewsItem :=
  match t.fetched with
  | .error _ => []
  | .ok p => parseNews t.crawler p

/-- Models `NewsCrawler.run(filename, debug = true)`: fetch, optional debug
HTML dump, parse, and a per-target Markdown save when at least one record
was parsed.  Returns the parsed records and the event trace. -/
def crawlerRun (c : Crawler) (fetched : Except String Page) (filename : Option String)
    (defaultName : String) (debug : Bool := true) : List NewsItem × List Event :=
  match fetched with
  | .error _ => ([], [Event.fetchErr c.url])
  | .ok page =>
    let debugEvs := if debug then [Event.debugWrite] else []
    let items := parseNews c page
    let saveEvs :=
      if items.length > 0 then [Event.mdSave (filename.getD defaultName) items] else []
    (items, [Event.fetchOk c.url] ++ debugEvs ++ saveEvs)

/-- The per-target loop of `main`: run the crawler with default arguments,
accumulate its records, and sleep `3000 + Math.random() * 5000`
milliseconds after every target (the sleep statement is inside the loop
body with no last-iteration guard).  `rand i` models the value of
`Math.random() * 5000` at iteration `i`. -/
def mainLoop (rand : Nat → Nat) (dateName : String) : List Target → Nat → List NewsItem × List Event
  | [], _ => ([], [])
  | t :: rest, i =>
    let r := crawlerRun t.crawler t.fetched none dateName
    let rRest := mainLoop rand dateName rest (i + 1)
    (r.1 ++ rRest.1, r.2 ++ [Event.sleepEv (3000 + rand i)] ++ rRest.2)

/-- Models `main()`: the per-target loop followed, when the aggregate list
is non-empty, by one Markdown save of the aggregate to the date-derived
filename and one `commitToGitHub` attempt on it. -/
def mainRun (targets : List Target) (rand : Nat → Nat) (dateName : String) :
    List NewsItem × List Event :=
  let r := mainLoop rand dateName targets 0
  if r.1.length > 0 then
    (r.1, r.2 ++ [Event.mdSave dateName r.1, Event.commitAttempt dateName])
  else r

/-- Concatenation of every target's records, in target order (the final
value of `allNews`). -/
def allItems : List Target → List NewsItem
  | [] => []
  | t :: rest => targetItems t ++ allItems rest

/-- Recognizer for sleep events. -/
def Event.isSleepEv : Event → Bool
  | .sleepEv _ => true
  | _ => false

/-- Recognizer for Markdown save (renderer + file write) events. -/
def Event.isMdSave : Event → Bool
  | .mdSave _ _ => true
  | _ => false

/-- Recognizer for debug HTML dump events. -/
def Event.isDebugW : Event → Bool
  | .debugWrite => true
  | _ => false

/-- Number of sleeps in a trace. -/
def countSleeps (evs : List Event) : Nat :=
  (evs.filter Event.isSleepEv).length

/-- Number of Markdown renderer/write invocations in a trace. -/
def countMdSaves (evs : List Event) : Nat :=
  (evs.filter Event.isMdSave).length

/-- Number of debug HTML dumps in a trace. -/
def countDebugW (evs : List Event) : Nat :=
  (evs.filter Event.isDebugW).length

/-- Whether a fetch outcome is a success. -/
def fetchedOk : Except String Page → Bool
  | .ok _ => true
  | .error _ => false

/-- Keys of the association list modelling the Map. -/
def alKeys (m : List (String × NewsItem)) : List String :=
  m.map Prod.fst

/-- Lookup in the association list modelling the Map. -/
def alLookup : List (String × NewsItem) → String → Option NewsItem
  | [], _ => none
  | (k, v) :: rest, t => if t = k then some v else alLookup rest t

/-- The last record of the list whose title is `t` (the element whose
fields survive last-write-wins deduplication). -/
def lastWithTitle (t : String) : List NewsItem → Option NewsItem
  | [] => none
  | i :: rest =>
    match lastWithTitle t rest with
    | some v => some v
    | none => if i.title = t then some i else none

/-- Remove every occurrence of `k`. -/
def removeAll (k : String) : List String → List String
  | [] => []
  | x :: rest => if x = k then removeAll k rest else x :: removeAll k rest

/-- The list of keys with later duplicates removed: insertion order of the
first occurrence of each key. -/
def firstOccur : List String → List String
  | [] => []
  | k :: rest => k :: removeAll k (firstOccur rest)

/-- Number of occurrences of a character in a character list. -/
def countCh (c : Char) : List Char → Nat
  | [] => 0
  | x :: rest => (if x = c then 1 else 0) + countCh c rest

/-- Concrete sina crawler state used for evaluating deduplication. -/
def c1crawler : Crawler :=
  ⟨"https://news.sina.com.cn/", fun s => some ("https://news.sina.com.cn" ++ s),
    some "news.sina.com.cn", "2025-10-11T00:00:00.000Z"⟩

/-- Concrete page with two sina cards sharing one title. -/
def c1page : Page :=
  ⟨[⟨"Headline A", "", some "https://a1.example/x"⟩,
    ⟨"Headline A", "", some "https://a2.example/y"⟩,
    ⟨"Other B", "", some "https://b.example/z"⟩], [], [], []⟩

/-- The record built from the later of the two duplicated elements. -/
def c1item2 : NewsItem :=
  ⟨"Headline A", "https://a2.example/y", "热门新闻", "2025-10-11T00:00:00.000Z", "新浪新闻"⟩

/-- Concrete sina crawler state for the fallback-suppression evaluation. -/
def c2crawler : Crawler :=
  ⟨"https://news.sina.com.cn/", fun s => some ("https://news.sina.com.cn" ++ s),
    some "news.sina.com.cn", "2025-10-11T00:00:00.000Z"⟩

/-- Concrete page where the sina-specific pass matches one card and the
generic pass would match an anchor. -/
def c2page : Page :=
  ⟨[⟨"Card headline", "", some "https://a1.example/x"⟩], [], [],
    [⟨some "https://other.example/y", "generic-anchor-headline"⟩]⟩

/-- Concrete target whose fetch fails. -/
def c3target : Target :=
  ⟨⟨"https://news.qq.com/", fun _ => none, some "news.qq.com", "T"⟩,
    Except.error "timeout of 10000ms exceeded"⟩

/-- Concrete target whose generic pass yields exactly one record. -/
def c4target : Target :=
  ⟨⟨"https://news.qq.com/", fun s => some s, some "news.qq.com", "T0"⟩,
    Except.ok ⟨[], [], [],
      [⟨some "https://news.qq.com/a/1.html", "breaking-news-item-01"⟩]⟩⟩

/-- Concrete crawler for the scheme-filter evaluations. -/
def c5crawler : Crawler :=
  ⟨"https://www.thepaper.cn/", fun s => some ("https://www.thepaper.cn/" ++ s),
    some "www.thepaper.cn", "T"⟩

/-- Anchor with an uppercase-variant scheme prefix. -/
def c5anchorUpper : Anchor :=
  ⟨some "JavaScript:void(0)", "click-here-headline-text"⟩

/-- Anchor with the lowercase scheme prefix. -/
def c5anchorLower : Anchor :=
  ⟨some "javascript:void(0)", "click-here-headline-text"⟩

/-- Concrete crawler for the length-boundary evaluations. -/
def c7crawler : Crawler :=
  ⟨"https://news.qq.com/", fun s => some s, some "news.qq.com", "T"⟩

/-- Concrete git environment where every git call succeeds. -/
def c9env : GitEnv :=
  ⟨Except.ok ⟨["a.md"], ["b.md"]⟩, Except.ok (), Except.ok (), Except.ok ()⟩

theorem alKeys_upsert (m : List (String × NewsItem)) (k : String) (v : NewsItem) :
    alKeys (mapUpsert m k v) = if k ∈ alKeys m then alKeys m else alKeys m ++ [k] := by
  induction m with
  | nil => simp [mapUpsert, alKeys]
  | cons hd rest ih =>
    obtain ⟨k0, v0⟩ := hd
    by_cases hk : k0 = k
    · subst hk
      simp [mapUpsert, alKeys]
    · have hne : ¬ k = k0 := fun h => hk h.symm
      simp only [mapUpsert, if_neg hk, alKeys, List.map_cons]
      simp only [alKeys] at ih
      rw [ih]
      by_cases hmem : k ∈ rest.map Prod.fst
      · simp [hmem, hne]
      · simp [hmem, hne]

theorem alLookup_upsert (m : List (String × NewsItem)) (k : String) (v : NewsItem)
    (t : String) : alLookup (mapUpsert m k v) t = if t = k then some v else alLookup m t := by
  induction m with
  | nil => simp [mapUpsert, alLookup]
  | cons hd rest ih =>
    obtain ⟨k0, v0⟩ := hd
    by_cases hk : k0 = k
    · subst hk
      by_cases ht : t = k0 <;> simp [mapUpsert, alLookup, ht]
    · by_cases ht : t = k0
      · have htk : ¬ t = k := fun hh => hk (ht.symm.trans hh)
        simp [mapUpsert, hk, alLookup, ht, htk]
      · simp [mapUpsert, hk, alLookup, ht, ih]

theorem alKeys_upsert_nodup (m : List (String × NewsItem)) (k : String) (v : NewsItem)
    (h : (alKeys m).Nodup) : (alKeys (mapUpsert m k v)).Nodup := by
  rw [alKeys_upsert]
  by_cases hmem : k ∈ alKeys m
  · simpa [hmem] using h
  · simp only [hmem, if_false]
    simpa [List.nodup_append] using ⟨h, hmem⟩

theorem foldl_dedupStep_lookup (items : List NewsItem) :
    ∀ (m : List (String × NewsItem)) (t : String),
      alLookup (items.foldl dedupStep m) t =
        match lastWithTitle t items with
        | some v => some v
        | none => alLookup m t := by
  induction items with
  | nil => intro m t; simp [lastWithTitle]
  | cons i rest ih =>
    intro m t
    simp only [List.foldl_cons]
    rw [ih]
    cases hrest : lastWithTitle t rest with
    | some v => simp [lastWithTitle, hrest]
    | none =>
      simp only [lastWithTitle, hrest, dedupStep, alLookup_upsert]
      by_cases ht : t = i.title
      · simp [ht]
      · have : ¬ i.title = t := fun h => ht h.symm
        simp [ht, this]

theorem foldl_dedupStep_nodup (items : List NewsItem) :
    ∀ (m : List (String × NewsItem)), (alKeys m).Nodup →
      (alKeys (items.foldl dedupStep m)).Nodup := by
  induction items with
  | nil => intro m h; simpa using h
  | cons i rest ih =>
    intro m h
    exact ih _ (alKeys_upsert_nodup _ _ _ h)

theorem mem_removeAll (k x : String) (l : List String) :
    x ∈ removeAll k l ↔ x ∈ l ∧ x ≠ k := by
  induction l with
  | nil => simp [removeAll]
  | cons a rest ih =>
    by_cases ha : a = k
    · subst ha
      rw [removeAll, if_pos rfl, ih, List.mem_cons]
      constructor
      · exact fun h => ⟨Or.inr h.1, h.2⟩
      · rintro ⟨hx | hx, hne⟩
        · exact absurd hx hne
        · exact ⟨hx, hne⟩
    · rw [removeAll, if_neg ha, List.mem_cons, List.mem_cons, ih]
      constructor
      · rintro (rfl | ⟨hx, hne⟩)
        · exact ⟨Or.inl rfl, ha⟩
        · exact ⟨Or.inr hx, hne⟩
      · rintro ⟨rfl | hx, hne⟩
        · exact Or.inl rfl
        · exact Or.inr ⟨hx, hne⟩

theorem mem_firstOccur (x : String) (l : List String) :
    x ∈ firstOccur l ↔ x ∈ l := by
  induction l with
  | nil => simp [firstOccur]
  | cons k rest ih =>
    simp only [firstOccur, List.mem_cons, mem_removeAll, ih]
    constructor
    · rintro (rfl | ⟨hx, _⟩)
      · exact Or.inl rfl
      · exact Or.inr hx
    · rintro (rfl | hx)
      · exact Or.inl rfl
      · by_cases hxk : x = k
        · exact Or.inl hxk
        · exact Or.inr ⟨hx, hxk⟩

theorem removeAll_append (k : String) (l1 l2 : List String) :
    removeAll k (l1 ++ l2) = removeAll k l1 ++ removeAll k l2 := by
  induction l1 with
  | nil => simp [removeAll]
  | cons a rest ih =>
    by_cases ha : a = k <;> simp [removeAll, ha, ih]

theorem firstOccur_concat (s : List String) (k : String) :
    firstOccur (s ++ [k]) = if k ∈ s then firstOccur s else firstOccur s ++ [k] := by
  induction s with
  | nil => simp [firstOccur, removeAll]
  | cons a rest ih =>
    have lhs : firstOccur ((a :: rest) ++ [k]) = a :: removeAll a (firstOccur (rest ++ [k])) := rfl
    have rhs : firstOccur (a :: rest) = a :: removeAll a (firstOccur rest) := rfl
    rw [lhs, rhs, ih]
    by_cases hk : k ∈ rest
    · rw [if_pos hk, if_pos (List.mem_cons_of_mem a hk)]
    · rw [if_neg hk]
      by_cases hka : k = a
      · subst hka
        rw [if_pos (List.mem_cons_self k rest), removeAll_append]
        have h2 : removeAll k [k] = [] := by rw [removeAll, if_pos rfl, removeAll]
        rw [h2, List.append_nil]
      · have hnot : k ∉ a :: rest := by
          intro h
          rcases List.mem_cons.1 h with h | h
          · exact hka h
          · exact hk h
        rw [if_neg hnot, removeAll_append]
        have h2 : removeAll a [k] = [k] := by rw [removeAll, if_neg hka, removeAll]
        rw [h2, List.cons_append]

theorem removeAll_sublist (k : String) (l : List String) :
    (removeAll k l).Sublist l := by
  induction l with
  | nil => simp [removeAll]
  | cons a rest ih =>
    by_cases ha : a = k
    · simpa [removeAll, ha] using ih.cons a
    · simpa [removeAll, ha] using ih.cons₂ a

theorem firstOccur_nodup (l : List String) : (firstOccur l).Nodup := by
  induction l with
  | nil => simp [firstOccur]
  | cons k rest ih =>
    simp only [firstOccur, List.nodup_cons]
    refine ⟨fun hmem => ?_, (removeAll_sublist k (firstOccur rest)).nodup ih⟩
    exact ((mem_removeAll k k (firstOccur rest)).1 hmem).2 rfl

theorem filterMap_ext_mem {α β : Type} (l : List α) (f g : α → Option β)
    (h : ∀ x ∈ l, f x = g x) : l.filterMap f = l.filterMap g := by
  induction l with
  | nil => rfl
  | cons a rest ih =>
    rw [List.filterMap_cons, List.filterMap_cons, h a (List.mem_cons_self a rest),
      ih fun x hx => h x (List.mem_cons_of_mem a hx)]

theorem al_values (m : List (String × NewsItem)) (h : (alKeys m).Nodup) :
    m.map Prod.snd = (alKeys m).filterMap (alLookup m) := by
  induction m with
  | nil => rfl
  | cons hd rest ih =>
    obtain ⟨k, v⟩ := hd
    simp only [alKeys, List.map_cons, List.nodup_cons] at h
    obtain ⟨hk, hrest⟩ := h
    have hhead : alLookup ((k, v) :: rest) k = some v := by
      simp [alLookup]
    have hcongr : (rest.map Prod.fst).filterMap (alLookup ((k, v) :: rest)) =
        (rest.map Prod.fst).filterMap (alLookup rest) := by
      refine filterMap_ext_mem _ _ _ fun x hx => ?_
      have hxk : ¬ x = k := fun hxy => hk (hxy ▸ hx)
      simp [alLookup, hxk]
    simp only [List.map_cons, alKeys, List.filterMap_cons, hhead]
    rw [hcongr]
    exact congrArg (v :: ·) (ih hrest)

theorem buildMap_concat (l : List NewsItem) (i : NewsItem) :
    buildMap (l ++ [i]) = mapUpsert (buildMap l) i.title i := by
  simp [buildMap, List.foldl_append, dedupStep]

theorem lastWithTitle_buildMap (l : List NewsItem) (t : String) :
    alLookup (buildMap l) t = lastWithTitle t l := by
  have := foldl_dedupStep_lookup l [] t
  simp only [buildMap] at *
  rw [this]
  cases lastWithTitle t l <;> simp [alLookup]

theorem alKeys_buildMap (l : List NewsItem) :
    alKeys (buildMap l) = firstOccur (l.map NewsItem.title) := by
  induction l using List.reverseRecOn with
  | nil => rfl
  | append_singleton l i ih =>
    rw [buildMap_concat, alKeys_upsert, ih, List.map_append, List.map_cons,
      List.map_nil, firstOccur_concat]
    by_cases hmem : i.title ∈ l.map NewsItem.title
    · simp [hmem, mem_firstOccur]
    · simp [hmem, mem_firstOccur]

theorem buildMap_nodup (l : List NewsItem) : (alKeys (buildMap l)).Nodup :=
  foldl_dedupStep_nodup l [] (by simp [alKeys])

theorem dedupByTitle_eq (l : List NewsItem) :
    dedupByTitle l =
      (firstOccur (l.map NewsItem.title)).filterMap fun t => lastWithTitle t l := by
  unfold dedupByTitle
  rw [al_values _ (buildMap_nodup l), alKeys_buildMap]
  exact filterMap_ext_mem _ _ _ fun t _ => lastWithTitle_buildMap l t

theorem lastWithTitle_mem (t : String) (l : List NewsItem) (i : NewsItem)
    (h : lastWithTitle t l = some i) : i ∈ l ∧ i.title = t := by
  induction l with
  | nil => simp [lastWithTitle] at h
  | cons a rest ih =>
    simp only [lastWithTitle] at h
    cases hrest : lastWithTitle t rest with
    | some v =>
      rw [hrest] at h
      obtain ⟨hm, hti⟩ := ih (hrest.trans (by injection h with h; rw [h]))
      exact ⟨List.mem_cons_of_mem a hm, hti⟩
    | none =>
      rw [hrest] at h
      by_cases ha : a.title = t
      · simp only [if_pos ha] at h
        injection h with h
        exact ⟨h ▸ List.mem_cons_self a rest, h ▸ ha⟩
      · simp [ha] at h

theorem lastWithTitle_of_mem (t : String) (l : List NewsItem)
    (h : t ∈ l.map NewsItem.title) : ∃ i, lastWithTitle t l = some i := by
  induction l with
  | nil => simp at h
  | cons a rest ih =>
    cases hrest : lastWithTitle t rest with
    | some v => exact ⟨v, by simp [lastWithTitle, hrest]⟩
    | none =>
      simp only [List.map_cons, List.mem_cons] at h
      rcases h with h | h
      · subst h
        exact ⟨a, by simp [lastWithTitle, hrest]⟩
      · obtain ⟨i, hi⟩ := ih h
        rw [hi] at hrest
        cases hrest

theorem filter_title_filterMap_not_mem (l : List NewsItem) (t : String)
    (ks : List String) (hnot : t ∉ ks) :
    ((ks.filterMap fun k => lastWithTitle k l).filter fun r => r.title == t) = [] := by
  induction ks with
  | nil => rfl
  | cons k rest ih =>
    have hkt : ¬ k = t := fun h => hnot (h ▸ List.mem_cons_self k rest)
    have hrest : t ∉ rest := fun h => hnot (List.mem_cons_of_mem k h)
    rw [List.filterMap_cons]
    cases hk : lastWithTitle k l with
    | none => exact ih hrest
    | some j =>
      have hj := (lastWithTitle_mem k l j hk).2
      have : ¬ j.title == t := by
        simp only [beq_iff_eq, hj]
        exact hkt
      simp only [List.filter_cons, this]
      simp only [Bool.false_eq_true, if_false]
      exact ih hrest

theorem filter_title_filterMap_unique (l : List NewsItem) (t : String) (i : NewsItem)
    (hlast : lastWithTitle t l = some i) :
    ∀ (ks : List String), ks.Nodup → t ∈ ks →
      ((ks.filterMap fun k => lastWithTitle k l).filter fun r => r.title == t) = [i] := by
  intro ks
  induction ks with
  | nil => intro _ h; cases h
  | cons k rest ih =>
    intro hnd hmem
    simp only [List.nodup_cons] at hnd
    rw [List.filterMap_cons]
    by_cases hk : k = t
    · subst hk
      rw [hlast]
      have hi := (lastWithTitle_mem k l i hlast).2
      simp only [List.filter_cons, beq_iff_eq, hi, if_pos rfl]
      have : ((rest.filterMap fun k' => lastWithTitle k' l).filter
          fun r => r.title == k) = [] :=
        filter_title_filterMap_not_mem l k rest hnd.1
      simp [this]
    · have hmem' : t ∈ rest := by
        rcases List.mem_cons.1 hmem with h | h
        · exact absurd h.symm hk
        · exact h
      cases hklast : lastWithTitle k l with
      | none => exact ih hnd.2 hmem'
      | some j =>
        have hj := (lastWithTitle_mem k l j hklast).2
        have : ¬ j.title == t := by
          simp only [beq_iff_eq, hj]
          exact hk
        simp only [List.filter_cons, this, Bool.false_eq_true, if_false]
        exact ih hnd.2 hmem'

theorem filterMap_last_map_title (l : List NewsItem) :
    ∀ (ks : List String), (∀ k ∈ ks, k ∈ l.map NewsItem.title) →
      ((ks.filterMap fun k => lastWithTitle k l).map NewsItem.title) = ks := by
  intro ks
  induction ks with
  | nil => intro _; rfl
  | cons k rest ih =>
    intro hall
    obtain ⟨j, hj⟩ := lastWithTitle_of_mem k l (hall k (List.mem_cons_self k rest))
    rw [List.filterMap_cons, hj, List.map_cons, (lastWithTitle_mem k l j hj).2,
      ih fun x hx => hall x (List.mem_cons_of_mem k hx)]

theorem mem_dedupByTitle (l : List NewsItem) (r : NewsItem)
    (h : r ∈ dedupByTitle l) : r ∈ l := by
  rw [dedupByTitle_eq] at h
  obtain ⟨t, _, hlast⟩ := List.mem_filterMap.1 h
  exact (lastWithTitle_mem t l r hlast).1

theorem passItem_fields (c : Crawler) (s src ti : String) (href : Option String)
    (r : NewsItem) (h : passItem c s src ti href = some r) :
    r.summary = s ∧ r.source = src := by
  cases href with
  | none => simp [passItem] at h
  | some link =>
    simp only [passItem] at h
    by_cases hc : ti ≠ "" ∧ link ≠ ""
    · rw [if_pos hc] at h
      cases hres : resolveLink c link with
      | none => rw [hres] at h; cases h
      | some fl =>
        rw [hres] at h
        injection h with h
        subst h
        exact ⟨rfl, rfl⟩
    · rw [if_neg hc] at h; cases h

theorem specificItems_summary (c : Crawler) (p : Page) (r : NewsItem)
    (h : r ∈ specificItems c p) :
    r.summary = "热门新闻" ∨ r.summary = "热榜新闻，无摘要" ∨ r.summary = "网易新闻，无摘要" := by
  unfold specificItems at h
  by_cases h1 : strContains c.url "sina.com.cn" = true
  · rw [if_pos h1] at h
    rcases List.mem_append.1 h with h | h
    · obtain ⟨el, _, hel⟩ := List.mem_filterMap.1 h
      exact Or.inl (passItem_fields _ _ _ _ _ _ hel).1
    · obtain ⟨el, _, hel⟩ := List.mem_filterMap.1 h
      exact Or.inr (Or.inl (passItem_fields _ _ _ _ _ _ hel).1)
  · rw [if_neg h1] at h
    by_cases h2 : strContains c.url "163.com" = true
    · rw [if_pos h2] at h
      obtain ⟨el, _, hel⟩ := List.mem_filterMap.1 h
      exact Or.inr (Or.inr (passItem_fields _ _ _ _ _ _ hel).1)
    · rw [if_neg h2] at h
      cases h

theorem countSleeps_append (a b : List Event) :
    countSleeps (a ++ b) = countSleeps a + countSleeps b := by
  simp [countSleeps, List.filter_append]

theorem countMdSaves_append (a b : List Event) :
    countMdSaves (a ++ b) = countMdSaves a + countMdSaves b := by
  simp [countMdSaves, List.filter_append]

theorem countDebugW_append (a b : List Event) :
    countDebugW (a ++ b) = countDebugW a + countDebugW b := by
  simp [countDebugW, List.filter_append]

theorem crawlerRun_fst (t : Target) (fn : Option String) (dn : String) (dbg : Bool) :
    (crawlerRun t.crawler t.fetched fn dn dbg).1 = targetItems t := by
  cases hf : t.fetched with
  | error e => simp [crawlerRun, targetItems, hf]
  | ok p => simp [crawlerRun, targetItems, hf]

theorem crawlerRun_sleep_count (t : Target) (fn : Option String) (dn : String) (dbg : Bool) :
    countSleeps (crawlerRun t.crawler t.fetched fn dn dbg).2 = 0 := by
  cases hf : t.fetched with
  | error e => simp [crawlerRun, hf, countSleeps, Event.isSleepEv]
  | ok p =>
    simp only [crawlerRun]
    cases dbg <;> by_cases h : (parseNews t.crawler p).length > 0 <;>
      simp [h, countSleeps, Event.isSleepEv, List.filter_append]

theorem crawlerRun_md_count (t : Target) (fn : Option String) (dn : String) (dbg : Bool) :
    countMdSaves (crawlerRun t.crawler t.fetched fn dn dbg).2 =
      if (targetItems t).isEmpty then 0 else 1 := by
  cases hf : t.fetched with
  | error e => simp [crawlerRun, hf, countMdSaves, Event.isMdSave, targetItems]
  | ok p =>
    simp only [crawlerRun, targetItems, hf]
    cases hp : parseNews t.crawler p with
    | nil =>
      cases dbg <;> simp [countMdSaves, Event.isMdSave, List.filter_append, hp]
    | cons a l =>
      cases dbg <;> simp [countMdSaves, Event.isMdSave, List.filter_append, hp]

theorem crawlerRun_debug_count (t : Target) (fn : Option String) (dn : String) :
    countDebugW (crawlerRun t.crawler t.fetched fn dn).2 =
      if fetchedOk t.fetched then 1 else 0 := by
  cases hf : t.fetched with
  | error e => simp [crawlerRun, hf, countDebugW, Event.isDebugW, fetchedOk]
  | ok p =>
    simp only [crawlerRun, fetchedOk]
    by_cases h : (parseNews t.crawler p).length > 0 <;>
      simp [h, countDebugW, Event.isDebugW, List.filter_append]

theorem mainLoop_fst (rand : Nat → Nat) (dn : String) :
    ∀ (ts : List Target) (i : Nat), (mainLoop rand dn ts i).1 = allItems ts := by
  intro ts
  induction ts with
  | nil => intro i; rfl
  | cons t rest ih =>
    intro i
    simp only [mainLoop, allItems]
    rw [ih (i + 1), crawlerRun_fst]

theorem mainLoop_sleep_count (rand : Nat → Nat) (dn : String) :
    ∀ (ts : List Target) (i : Nat), countSleeps (mainLoop rand dn ts i).2 = ts.length := by
  intro ts
  induction ts with
  | nil => intro i; rfl
  | cons t rest ih =>
    intro i
    simp only [mainLoop]
    rw [countSleeps_append, countSleeps_append, ih (i + 1), crawlerRun_sleep_count]
    have h1 : countSleeps [Event.sleepEv (3000 + rand i)] = 1 := rfl
    rw [h1, List.length_cons]
    omega

theorem mainLoop_md_count (rand : Nat → Nat) (dn : String) :
    ∀ (ts : List Target) (i : Nat),
      countMdSaves (mainLoop rand dn ts i).2 =
        ts.countP fun t => !(targetItems t).isEmpty := by
  intro ts
  induction ts with
  | nil => intro i; rfl
  | cons t rest ih =>
    intro i
    simp only [mainLoop]
    rw [countMdSaves_append, countMdSaves_append, ih (i + 1), crawlerRun_md_count]
    have hsl : countMdSaves [Event.sleepEv (3000 + rand i)] = 0 := by
      simp [countMdSaves, Event.isMdSave]
    rw [hsl, List.countP_cons]
    cases he : (targetItems t).isEmpty <;> simp [he] <;> omega

theorem mainLoop_debug_count (rand : Nat → Nat) (dn : String) :
    ∀ (ts : List Target) (i : Nat),
      countDebugW (mainLoop rand dn ts i).2 =
        ts.countP fun t => fetchedOk t.fetched := by
  intro ts
  induction ts with
  | nil => intro i; rfl
  | cons t rest ih =>
    intro i
    simp only [mainLoop]
    rw [countDebugW_append, countDebugW_append, ih (i + 1), crawlerRun_debug_count]
    have hsl : countDebugW [Event.sleepEv (3000 + rand i)] = 0 := by
      simp [countDebugW, Event.isDebugW]
    rw [hsl, List.countP_cons]
    cases he : fetchedOk t.fetched <;> simp [he] <;> omega

theorem mainLoop_sleep_mem (rand : Nat → Nat) (dn : String) :
    ∀ (ts : List Target) (i : Nat) (ms : Nat),
      Event.sleepEv ms ∈ (mainLoop rand dn ts i).2 → ∃ j, ms = 3000 + rand j := by
  intro ts
  induction ts with
  | nil => intro i ms h; cases h
  | cons t rest ih =>
    intro i ms h
    simp only [mainLoop] at h
    rcases List.mem_append.1 h with h | h
    · rcases List.mem_append.1 h with h | h
      · exfalso
        have hc : countSleeps (crawlerRun t.crawler t.fetched none dn true).2 = 0 :=
          crawlerRun_sleep_count t none dn true
        rw [countSleeps, List.length_eq_zero] at hc
        have hmem : Event.sleepEv ms ∈
            (crawlerRun t.crawler t.fetched none dn true).2.filter Event.isSleepEv :=
          List.mem_filter.2 ⟨h, rfl⟩
        rw [hc] at hmem
        cases hmem
      · have heq := List.mem_singleton.1 h
        injection heq with heq
        exact ⟨i, heq⟩
    · exact ih (i + 1) ms h

theorem countCh_append (c : Char) (l1 l2 : List Char) :
    countCh c (l1 ++ l2) = countCh c l1 + countCh c l2 := by
  induction l1 with
  | nil => simp [countCh]
  | cons x rest ih => simp [countCh, ih, Nat.add_assoc]

theorem countCh_replace_other (c : Char) (r : List Char) (x : Char) (hx : x ≠ c)
    (hr : countCh x r = 0) (l : List Char) :
    countCh x (replaceAllChar c r l) = countCh x l := by
  induction l with
  | nil => rfl
  | cons y rest ih =>
    by_cases hy : y = c
    · subst hy
      have hcx : ¬ (y = x) := fun h => hx h.symm
      simp [replaceAllChar, countCh_append, hr, ih, countCh, hcx]
    · simp [replaceAllChar, hy, countCh, ih]

theorem countCh_replace_self_zero (c : Char) (r : List Char) (hr : countCh c r = 0)
    (l : List Char) : countCh c (replaceAllChar c r l) = 0 := by
  induction l with
  | nil => rfl
  | cons y rest ih =>
    by_cases hy : y = c
    · subst hy
      simp [replaceAllChar, countCh_append, hr, ih]
    · simp [replaceAllChar, hy, countCh, ih]

theorem countCh_replace_target (c : Char) (r : List Char) (x : Char) (hx : x ≠ c)
    (hr : countCh x r = 1) (l : List Char) :
    countCh x (replaceAllChar c r l) = countCh x l + countCh c l := by
  induction l with
  | nil => rfl
  | cons y rest ih =>
    by_cases hy : y = c
    · subst hy
      have hcx : ¬ (y = x) := fun h => hx h.symm
      simp [replaceAllChar, countCh_append, hr, ih, countCh, hcx]
      omega
    · simp [replaceAllChar, hy, countCh, ih]
      omega

theorem countCh_replace_double (c : Char) (r : List Char) (hr : countCh c r = 2)
    (l : List Char) : countCh c (replaceAllChar c r l) = 2 * countCh c l := by
  induction l with
  | nil => rfl
  | cons y rest ih =>
    by_cases hy : y = c
    · subst hy
      simp [replaceAllChar, countCh_append, hr, ih, countCh]
      omega
    · simp [replaceAllChar, hy, countCh, ih]

theorem mainRun_fst (ts : List Target) (rand : Nat → Nat) (d : String) :
    (mainRun ts rand d).1 = allItems ts := by
  cases hall : allItems ts with
  | nil =>
    have h0 : (mainLoop rand d ts 0).1 = [] := by rw [mainLoop_fst]; exact hall
    simp [mainRun, h0]
  | cons a l =>
    have h0 : (mainLoop rand d ts 0).1 = a :: l := by rw [mainLoop_fst]; exact hall
    simp [mainRun, h0]

theorem mainRun_snd (ts : List Target) (rand : Nat → Nat) (d : String) :
    (mainRun ts rand d).2 = (mainLoop rand d ts 0).2 ++
      (if (allItems ts).isEmpty then []
       else [Event.mdSave d (allItems ts), Event.commitAttempt d]) := by
  cases hall : allItems ts with
  | nil =>
    have h0 : (mainLoop rand d ts 0).1 = [] := by rw [mainLoop_fst]; exact hall
    simp [mainRun, h0]
  | cons a l =>
    have h0 : (mainLoop rand d ts 0).1 = a :: l := by rw [mainLoop_fst]; exact hall
    simp [mainRun, h0]

/-- C1: for every crawler state and page, a title occurring among the
accepted elements' records (in particular, a title shared by two or more
of them) yields exactly one record in `parseNews`'s output, namely the
record built from the last (later-encountered) element with that title,
and the output lists titles in the insertion order of each title key's
first occurrence. -/
theorem parseNews_dedup_lastWins (c : Crawler) (p : Page) (t : String) (i : NewsItem)
    (h : lastWithTitle t (rawItems c p) = some i) :
    ((parseNews c p).filter fun r => r.title == t) = [i] ∧
    (parseNews c p).map NewsItem.title = firstOccur ((rawItems c p).map NewsItem.title) := by
  have hmem : t ∈ (rawItems c p).map NewsItem.title := by
    obtain ⟨hm, ht⟩ := lastWithTitle_mem t _ i h
    exact ht ▸ List.mem_map_of_mem NewsItem.title hm
  constructor
  · rw [parseNews, dedupByTitle_eq]
    exact filter_title_filterMap_unique _ t i h _ (firstOccur_nodup _)
      ((mem_firstOccur t _).2 hmem)
  · rw [parseNews, dedupByTitle_eq]
    exact filterMap_last_map_title _ _ fun k hk => (mem_firstOccur k _).1 hk

/-- Witness for C1 at a concrete page with a duplicated title: the second
card's record survives and the order keeps the first occurrence slot. -/
theorem parseNews_dedup_lastWins_witness :
    lastWithTitle "Headline A" (rawItems c1crawler c1page) = some c1item2 ∧
    ((parseNews c1crawler c1page).filter fun r => r.title == "Headline A") = [c1item2] ∧
    (parseNews c1crawler c1page).map NewsItem.title =
      firstOccur ((rawItems c1crawler c1page).map NewsItem.title) := by
  have h : lastWithTitle "Headline A" (rawItems c1crawler c1page) = some c1item2 := by
    decide
  obtain ⟨h1, h2⟩ := parseNews_dedup_lastWins c1crawler c1page "Headline A" c1item2 h
  exact ⟨h, h1, h2⟩

/-- C2: for a crawler whose URL matches a site-specific branch, the generic
fallback pass contributes records exactly when the site-specific passes
produced zero records; in particular, when the specific pass yields at
least one record, no output record carries the generic-pass marker summary
(the string 通用爬取，无摘要). -/
theorem parseNews_no_fallback_marker (c : Crawler) (p : Page)
    (hsite : strContains c.url "sina.com.cn" = true ∨ strContains c.url "163.com" = true) :
    (specificItems c p ≠ [] → rawItems c p = specificItems c p ∧
      ∀ r ∈ parseNews c p, r.summary ≠ "通用爬取，无摘要") ∧
    (specificItems c p = [] →
      rawItems c p = specificItems c p ++ genericPass c p.anchors) := by
  constructor
  · intro hne
    have hlen : ¬ (specificItems c p).length = 0 := by
      intro h0
      exact hne (List.length_eq_zero.1 h0)
    have hraweq : rawItems c p = specificItems c p := by
      simp [rawItems, hlen]
    refine ⟨hraweq, fun r hr => ?_⟩
    have hraw : r ∈ rawItems c p := mem_dedupByTitle _ r hr
    rw [hraweq] at hraw
    rcases specificItems_summary c p r hraw with h | h | h <;> rw [h] <;> decide
  · intro he
    have hlen : (specificItems c p).length = 0 := by rw [he]; rfl
    simp [rawItems, hlen]

/-- Witness for C2: a sina page whose specific pass matches one card while
an in-range generic anchor is present; the fallback marker never appears. -/
theorem parseNews_no_fallback_marker_witness :
    specificItems c2crawler c2page ≠ [] ∧
    rawItems c2crawler c2page = specificItems c2crawler c2page ∧
    ∀ r ∈ parseNews c2crawler c2page, r.summary ≠ "通用爬取，无摘要" := by
  have h := (parseNews_no_fallback_marker c2crawler c2page
    (Or.inl (by decide))).1 (by decide)
  exact ⟨by decide, h.1, h.2⟩

/-- C3 counterexample: with two targets the per-target loop performs two
sleeps, not one — the sleep statement also runs after the last target. -/
theorem main_sleep_after_last_counterexample :
    countSleeps (mainRun [c3target, c3target] (fun _ => 0) "20251011.md").2 = 2 ∧
    countSleeps (mainRun [c3target, c3target] (fun _ => 0) "20251011.md").2 ≠
      [c3target, c3target].length - 1 := by
  constructor
  · decide
  · decide

/-- C3 amended: the randomized 3–8 second sleep occurs after every target,
including the last, so a run over n targets performs exactly n sleeps,
each of between 3000 and 8000 milliseconds. -/
theorem main_sleep_count (ts : List Target) (rand : Nat → Nat) (d : String)
    (h : ∀ i, rand i < 5000) :
    countSleeps (mainRun ts rand d).2 = ts.length ∧
    ∀ ms, Event.sleepEv ms ∈ (mainRun ts rand d).2 → 3000 ≤ ms ∧ ms < 8000 := by
  constructor
  · rw [mainRun_snd, countSleeps_append, mainLoop_sleep_count]
    cases he : (allItems ts).isEmpty <;> simp [countSleeps, Event.isSleepEv]
  · intro ms hm
    rw [mainRun_snd] at hm
    rcases List.mem_append.1 hm with hm | hm
    · obtain ⟨j, hj⟩ := mainLoop_sleep_mem rand d ts 0 ms hm
      have hb := h j
      omega
    · exfalso
      by_cases he : (allItems ts).isEmpty = true
      · rw [if_pos he] at hm
        cases hm
      · rw [if_neg he] at hm
        rcases List.mem_cons.1 hm with hc | hc
        · cases hc
        · rcases List.mem_cons.1 hc with hc2 | hc2
          · cases hc2
          · cases hc2

/-- Witness for C3 amended at one concrete target with zero randomness. -/
theorem main_sleep_count_witness :
    countSleeps (mainRun [c3target] (fun _ => 0) "20251011.md").2 = 1 ∧
    ∀ ms, Event.sleepEv ms ∈ (mainRun [c3target] (fun _ => 0) "20251011.md").2 →
      3000 ≤ ms ∧ ms < 8000 :=
  main_sleep_count [c3target] (fun _ => 0) "20251011.md"
    (fun _ => by show (0 : Nat) < 5000; decide)

/-- C4 counterexample: with one target that yields one record, the Markdown
renderer/write is invoked twice in the run — once inside the per-target
`run` call and once on the aggregate — and once already inside the
per-target loop, refuting both "exactly once" and "no per-target
invocation". -/
theorem mainRun_per_target_save_counterexample :
    countMdSaves (mainRun [c4target] (fun _ => 0) "20251011.md").2 = 2 ∧
    countMdSaves (mainLoop (fun _ => 0) "20251011.md" [c4target] 0).2 = 1 := by
  constructor
  · decide
  · decide

/-- C4 amended: the Markdown renderer/write is invoked once per target
whose parse yields at least one record (inside `run`) and once more on the
aggregated list after all targets (when it is non-empty), the aggregate
invocation and the commit attempt coming after all per-target events. -/
theorem mainRun_save_count (ts : List Target) (rand : Nat → Nat) (d : String) :
    countMdSaves (mainRun ts rand d).2 =
      (ts.countP fun t => !(targetItems t).isEmpty) +
        (if (allItems ts).isEmpty then 0 else 1) ∧
    (mainRun ts rand d).2 = (mainLoop rand d ts 0).2 ++
      (if (allItems ts).isEmpty then []
       else [Event.mdSave d (allItems ts), Event.commitAttempt d]) := by
  refine ⟨?_, mainRun_snd ts rand d⟩
  rw [mainRun_snd, countMdSaves_append, mainLoop_md_count]
  cases he : (allItems ts).isEmpty <;> simp [countMdSaves, Event.isMdSave]

/-- C5 counterexample: an anchor whose href begins with the uppercase
variant JavaScript: passes the scheme filter and produces a record, so the
filter is not case-insensitive. -/
theorem scheme_filter_case_counterexample :
    strStartsWith "JavaScript:void(0)" "JavaScript:" = true ∧
    schemeMatch "JavaScript:void(0)" = false ∧
    (genericItem c5crawler c5anchorUpper).isSome = true := by
  decide

/-- C5 amended: the scheme-prefix filter matches case-sensitively — an
anchor whose href begins with the lowercase prefixes javascript:, mailto:
or tel: is rejected by the generic pass. -/
theorem scheme_filter_lowercase (c : Crawler) (a : Anchor) (href : String)
    (ha : a.href = some href)
    (h : strStartsWith href "javascript:" = true ∨ strStartsWith href "mailto:" = true ∨
      strStartsWith href "tel:" = true) :
    genericItem c a = none := by
  have hs : schemeMatch href = true := by
    rcases h with h | h | h <;> simp [schemeMatch, h]
  simp [genericItem, ha, hs]

/-- Witness for C5 amended at a concrete lowercase javascript: anchor. -/
theorem scheme_filter_lowercase_witness :
    genericItem c5crawler c5anchorLower = none :=
  scheme_filter_lowercase c5crawler c5anchorLower "javascript:void(0)" rfl
    (Or.inl (by decide))

/-- C6 counterexample: on the spec's example title the renderer produces
the field with the space after the comma preserved, which differs from the
claimed field text (which drops the space). -/
theorem csv_field_example_counterexample :
    csvRow ⟨"He said \"hi\", ok", "L", "S", "T", "R"⟩ =
      "\"He said \"\"hi\"\"， ok\",\"L\",\"S\",\"T\",\"R\"\n" ∧
    csvEscapeText "He said \"hi\", ok" ≠ "He said \"\"hi\"\"，ok" := by
  constructor
  · decide
  · decide

/-- C6 amended: every CSV row wraps all five fields in double quotes,
transforms only title and summary, and the transformation doubles every
double quote and turns every ASCII comma into a full-width comma (so the
example title renders as the field "He said ""hi""， ok", keeping the
space after the comma). -/
theorem csv_escape_amended (i : NewsItem) (s : String) :
    csvRow i = "\"" ++ csvEscapeText i.title ++ "\",\"" ++ i.link ++ "\",\"" ++
        csvEscapeText i.summary ++ "\",\"" ++ i.crawl_time ++ "\",\"" ++
        i.source ++ "\"\n" ∧
    countCh ',' (csvEscapeText s).data = 0 ∧
    countCh '，' (csvEscapeText s).data = countCh '，' s.data + countCh ',' s.data ∧
    countCh '"' (csvEscapeText s).data = 2 * countCh '"' s.data ∧
    csvEscapeText "He said \"hi\", ok" = "He said \"\"hi\"\"， ok" := by
  refine ⟨rfl, ?_, ?_, ?_, by decide⟩
  · show countCh ','
      (replaceAllChar ',' ['，'] (replaceAllChar '"' ['"', '"'] s.data)) = 0
    exact countCh_replace_self_zero ',' ['，'] (by decide) _
  · show countCh '，'
      (replaceAllChar ',' ['，'] (replaceAllChar '"' ['"', '"'] s.data)) =
        countCh '，' s.data + countCh ',' s.data
    rw [countCh_replace_target ',' ['，'] '，' (by decide) (by decide) _,
      countCh_replace_other '"' ['"', '"'] '，' (by decide) (by decide) s.data,
      countCh_replace_other '"' ['"', '"'] ',' (by decide) (by decide) s.data]
  · show countCh '"'
      (replaceAllChar ',' ['，'] (replaceAllChar '"' ['"', '"'] s.data)) =
        2 * countCh '"' s.data
    rw [countCh_replace_other ',' ['，'] '"' (by decide) (by decide) _,
      countCh_replace_double '"' ['"', '"'] (by decide) s.data]

/-- C7: in the generic pass, an anchor whose trimmed text length is exactly
10 or exactly 100 yields no record, while one of length 11 or 99 that
passes the href filters (present, non-empty, no lowercase scheme prefix)
and whose link resolution and hostname lookup succeed yields a record: the
length bound is exclusive at both ends. -/
theorem generic_length_boundaries (c : Crawler) (a : Anchor) :
    (((strTrim a.text).length = 10 ∨ (strTrim a.text).length = 100) →
      genericItem c a = none) ∧
    (∀ href, a.href = some href →
      ((strTrim a.text).length = 11 ∨ (strTrim a.text).length = 99) →
      href ≠ "" → schemeMatch href = false →
      (resolveLink c href).isSome = true → c.hostname.isSome = true →
      (genericItem c a).isSome = true) := by
  constructor
  · intro hlen
    cases ha : a.href with
    | none => simp [genericItem, ha]
    | some href =>
      rcases hlen with h | h <;> simp [genericItem, ha, h]
  · intro href ha hlen hne hsch hres hhost
    have htne : strTrim a.text ≠ "" := by
      intro h0
      rcases hlen with h | h <;> rw [h0] at h <;> exact absurd h (by decide)
    have h1 : (strTrim a.text).length > 10 := by rcases hlen with h | h <;> omega
    have h2 : (strTrim a.text).length < 100 := by rcases hlen with h | h <;> omega
    cases hres' : resolveLink c href with
    | none => rw [hres'] at hres; cases hres
    | some fl =>
      cases hh : c.hostname with
      | none => rw [hh] at hhost; cases hhost
      | some host => simp [genericItem, ha, htne, hne, h1, h2, hsch, hres', hh]

/-- Witness for C7 at anchors of trimmed lengths 10 and 11. -/
theorem generic_length_boundaries_witness :
    genericItem c7crawler ⟨some "https://news.qq.com/x", "abcdefghij"⟩ = none ∧
    (genericItem c7crawler ⟨some "https://news.qq.com/x", "abcdefghijk"⟩).isSome = true := by
  constructor
  · exact (generic_length_boundaries c7crawler
      ⟨some "https://news.qq.com/x", "abcdefghij"⟩).1 (Or.inl (by decide))
  · exact (generic_length_boundaries c7crawler
      ⟨some "https://news.qq.com/x", "abcdefghijk"⟩).2 "https://news.qq.com/x" rfl
      (Or.inl (by decide)) (by decide) (by decide) (by decide) (by decide)

/-- C8: given an absent or empty record list, both savers return false and
perform no file write (no filename/content pair is produced, so the target
file is neither created nor modified). -/
theorem save_empty_no_write (items : Option (List NewsItem)) (fn : Option String)
    (dn ds tms : String) (h : items = none ∨ items = some []) :
    saveToMarkdown items fn dn ds tms = (false, none) ∧
    saveToCsv items fn dn = (false, none) := by
  rcases h with rfl | rfl <;> exact ⟨rfl, rfl⟩

/-- Witness for C8 at the empty list with the date-derived defaults. -/
theorem save_empty_no_write_witness :
    saveToMarkdown (some []) none "20251011.md" "2025/10/11" "2025/10/11 08:00:00" =
      (false, none) ∧
    saveToCsv (some []) none "news_20251011.csv" = (false, none) :=
  ⟨(save_empty_no_write (some []) none "20251011.md" "2025/10/11"
      "2025/10/11 08:00:00" (Or.inr rfl)).1,
    (save_empty_no_write (some []) none "news_20251011.csv" "2025/10/11"
      "2025/10/11 08:00:00" (Or.inr rfl)).2⟩

/-- C9: when the repository status lists the path as neither modified nor
untracked, commitToGitHub returns false having attempted no git add,
commit or push; and (being a total function into Bool) it always returns a
boolean rather than propagating an exception. -/
theorem commit_requires_change (env : GitEnv) (p : String) (st : GitStatus)
    (h1 : env.statusRes = Except.ok st) (h2 : p ∉ st.modified) (h3 : p ∉ st.not_added) :
    commitToGitHub env p = (false, []) ∧
    ∀ (e : GitEnv) (q : String),
      (commitToGitHub e q).1 = true ∨ (commitToGitHub e q).1 = false := by
  constructor
  · have hcond : ¬ (p ∈ st.modified ∨ p ∈ st.not_added) := by
      rintro (h | h)
      · exact h2 h
      · exact h3 h
    simp [commitToGitHub, h1, hcond]
  · intro e q
    rcases Bool.dichotomy (commitToGitHub e q).1 with hb | hb
    · exact Or.inr hb
    · exact Or.inl hb

/-- Witness for C9 at a concrete status not listing the path. -/
theorem commit_requires_change_witness :
    commitToGitHub c9env "20251011.md" = (false, []) :=
  (commit_requires_change c9env "20251011.md" ⟨["a.md"], ["b.md"]⟩ rfl
    (by decide) (by decide)).1

/-- C10: the `debug` parameter of `run` defaults to true and `main` invokes
`run` with no arguments, so every successful fetch in an ordinary run
writes the debug HTML dump — one debug write per successfully fetched
target, unconditionally. -/
theorem run_debug_default (ts : List Target) (rand : Nat → Nat) (d : String) :
    countDebugW (mainRun ts rand d).2 = (ts.countP fun t => fetchedOk t.fetched) ∧
    ∀ (c : Crawler) (f : Except String Page) (fn : Option String) (dn : String),
      crawlerRun c f fn dn = crawlerRun c f fn dn true := by
  constructor
  · rw [mainRun_snd, countDebugW_append, mainLoop_debug_count]
    cases he : (allItems ts).isEmpty <;> simp [countDebugW, Event.isDebugW]
  · intro c f fn dn
    rfl
